import Mathlib

/-!
Verification development for the Meeting-Minutes retrieval pipeline
(backend/pdf_processor.py, backend/qdrant_service.py, backend/rag_service.py,
backend/api_routes.py).

The Python modules are shallowly embedded: strings are `List Char` wrapped in
`String`, Python `int` is `Int`/`Nat`, `datetime` dates are a `PyDate` record,
floats carried through embedding vectors are represented by `Rat` (no floating
point arithmetic is performed by the modelled code, values are only moved
around), a raised exception is `Except.error`, and each external provider call
(HuggingFace embedding endpoint, Qdrant, Groq) is a parameter describing that
outcome of that call.  Character classes model the ASCII fragment of Python's
Unicode classes; all inputs in the repository and in the claims are ASCII.
-/

/-! ### Character classes (ASCII fragment of the Python classes) -/

/-- Python whitespace for `str.split` / `str.strip` and the regex class `\s`
(ASCII fragment): space, tab, newline, carriage return, vertical tab, form
feed. -/
def isPySpace (c : Char) : Bool :=
  c = ' ' || c = '\t' || c = '\n' || c = '\r' || c = Char.ofNat 11 || c = Char.ofNat 12

/-- Regex class `\d` (ASCII decimal digit). -/
def isDigitChar (c : Char) : Bool :=
  '0' ≤ c && c ≤ '9'

/-- Regex class `\w` (ASCII fragment): letters, digits, underscore. -/
def isWordChar (c : Char) : Bool :=
  c.isAlpha || isDigitChar c || c = '_'

/-- `str.isalpha` (ASCII fragment): nonempty and all alphabetic. -/
def pyIsAlpha (s : List Char) : Bool :=
  !s.isEmpty && s.all Char.isAlpha

/-- `str.lower` (ASCII fragment). -/
def pyLower (s : List Char) : List Char :=
  s.map Char.toLower

/-! ### Python string primitives used by the processors -/

/-- Accumulator pass for `str.split()` with no separator: splits on runs of
whitespace and drops empty pieces.  `acc` holds the current in-progress word,
reversed. -/
def pySplitAux : List Char → List Char → List (List Char)
  | [], acc => if acc.isEmpty then [] else [acc.reverse]
  | c :: t, acc =>
    if isPySpace c then
      if acc.isEmpty then pySplitAux t [] else acc.reverse :: pySplitAux t []
    else pySplitAux t (c :: acc)

/-- Python `text.split()` (no argument): whitespace-delimited words, empties
dropped. -/
def pySplit (s : List Char) : List (List Char) :=
  pySplitAux s []

/-- Python `" ".join(words)`. -/
def joinSpace : List (List Char) → List Char
  | [] => []
  | [w] => w
  | w :: ws => w ++ ' ' :: joinSpace ws

/-- Python `str.strip()`: remove leading and trailing whitespace. -/
def pyStrip (s : List Char) : List Char :=
  ((s.dropWhile isPySpace).reverse.dropWhile isPySpace).reverse

/-- Python `str.replace(pat, rep)` for a nonempty `pat`: replace every
non-overlapping occurrence, scanning left to right.  (The modelled call sites
always pass a nonempty pattern; an empty pattern returns the string
unchanged.) -/
def pyReplace (s pat rep : List Char) : List Char :=
  match s, pat with
  | s, [] => s
  | [], _ :: _ => []
  | c :: s', p :: ps =>
    if (p :: ps).isPrefixOf (c :: s') then
      rep ++ pyReplace (s'.drop ps.length) (p :: ps) rep
    else
      c :: pyReplace s' (p :: ps) rep
termination_by s.length
decreasing_by
  · simp only [List.length_cons]
    have := List.length_drop ps.length s'
    omega
  · simp

/-! ### Python `int()` on the strings reachable here -/

/-- Digit value of an ASCII digit character. -/
def digitVal (c : Char) : Nat :=
  c.toNat - 48

/-- Run of decimal digits with the Python single-underscore-between-digits rule,
folding into `acc`; any other character rejects the literal. -/
def goDigits (acc : Nat) : List Char → Option Nat
  | [] => some acc
  | c :: rest =>
    if c = '_' then
      match rest with
      | c2 :: rest2 =>
        if isDigitChar c2 then goDigits (acc * 10 + digitVal c2) rest2 else none
      | [] => none
    else if isDigitChar c then goDigits (acc * 10 + digitVal c) rest else none

/-- Nonempty decimal digit run (Python integer literal body). -/
def pyIntDigits : List Char → Option Nat
  | [] => none
  | c :: rest => if isDigitChar c then goDigits (digitVal c) rest else none

/-- Python `int(s)` on the strings this code passes it: an optional sign
followed by a digit run (the call sites never pass surrounding whitespace).
`none` models the raised `ValueError`. -/
def pyInt (s : List Char) : Option Int :=
  match s with
  | [] => none
  | c :: rest =>
    if c = '-' then (pyIntDigits rest).map (fun n => -(n : Int))
    else if c = '+' then (pyIntDigits rest).map (fun n => (n : Int))
    else (pyIntDigits (c :: rest)).map (fun n => (n : Int))

/-! ### Decimal rendering of a natural number (Python `str(n)` / f-strings) -/

/-- ASCII digit character for a value below ten. -/
def digitChar (d : Nat) : Char :=
  Char.ofNat (48 + d)

/-- Fuel-driven most-significant-first digit expansion. -/
def natToCharsAux : Nat → Nat → List Char → List Char
  | 0, _, acc => acc
  | fuel + 1, n, acc =>
    if n = 0 then acc else natToCharsAux fuel (n / 10) (digitChar (n % 10) :: acc)

/-- Decimal rendering of `n`, as Python `str(n)` produces for a nonnegative
int. -/
def natToChars (n : Nat) : List Char :=
  if n = 0 then ['0'] else natToCharsAux n n []

/-- `str(n)` as a Lean `String`. -/
def natToStr (n : Nat) : String :=
  String.mk (natToChars n)

/-! ### Calendar dates (`datetime.datetime` at date precision) -/

/-- A Python `datetime` as the code uses it: date components only (the time
part is always midnight). -/
structure PyDate where
  year : Nat
  month : Nat
  day : Nat
deriving DecidableEq, Repr

/-- Gregorian leap year, as `datetime` implements it. -/
def isLeapYear (y : Nat) : Bool :=
  y % 4 = 0 && (y % 100 ≠ 0 || y % 400 = 0)

/-- Days in a month of a given year. -/
def daysInMonth (y m : Nat) : Nat :=
  match m with
  | 1 => 31 | 2 => if isLeapYear y then 29 else 28 | 3 => 31 | 4 => 30
  | 5 => 31 | 6 => 30 | 7 => 31 | 8 => 31 | 9 => 30 | 10 => 31
  | 11 => 30 | 12 => 31 | _ => 0

/-- `datetime(year, month, day)`: `some` on a valid proleptic Gregorian date
within the `datetime` year range 1..9999, `none` for the raised `ValueError`. -/
def mkDatetime (year : Int) (month : Nat) (day : Int) : Option PyDate :=
  if 1 ≤ year ∧ year ≤ 9999 ∧ 1 ≤ month ∧ month ≤ 12 ∧ 1 ≤ day ∧
      day ≤ (daysInMonth year.toNat month : Int) then
    some ⟨year.toNat, month, day.toNat⟩
  else
    none

/-- Serial day number of a proleptic Gregorian date, with 1970-01-01 as day 0
(the standard civil-from-date computation). -/
def daysFromCivil (y m d : Int) : Int :=
  let y' := if m ≤ 2 then y - 1 else y
  let era := Int.fdiv y' 400
  let yoe := y' - era * 400
  let mp := Int.emod (m + 9) 12
  let doy := Int.fdiv (153 * mp + 2) 5 + d - 1
  let doe := yoe * 365 + Int.fdiv yoe 4 - Int.fdiv yoe 100 + doy
  era * 146097 + doe - 719468

/-- `strftime("%A")` weekday names, indexed Monday = 0 as in
`datetime.weekday()`. -/
def weekdayNames : List (List Char) :=
  ["Monday".data, "Tuesday".data, "Wednesday".data, "Thursday".data,
   "Friday".data, "Saturday".data, "Sunday".data]

/-- `strftime("%A")` for a date. -/
def weekdayChars (dt : PyDate) : List Char :=
  weekdayNames.getD
    ((Int.emod (daysFromCivil dt.year dt.month dt.day + 3) 7).toNat) []

/-- `strftime("%B")` full month names (C locale). -/
def monthNames : List (List Char) :=
  ["January".data, "February".data, "March".data, "April".data, "May".data,
   "June".data, "July".data, "August".data, "September".data, "October".data,
   "November".data, "December".data]

/-- `strftime("%B")` for a month number 1..12. -/
def monthChars (m : Nat) : List Char :=
  monthNames.getD (m - 1) []

/-- Zero-padded two-digit rendering (`strftime("%d")`, `"%m"`). -/
def pad2Chars (n : Nat) : List Char :=
  if n < 10 then '0' :: natToChars n else natToChars n

/-- Zero-padded four-digit rendering (`strftime("%Y")` for years up to 9999).
-/
def pad4Chars (n : Nat) : List Char :=
  List.replicate (4 - (natToChars n).length) '0' ++ natToChars n

/-- `datetime.isoformat()` of a midnight datetime:
`YYYY-MM-DDT00:00:00`. -/
def isoformat (dt : PyDate) : String :=
  String.mk (pad4Chars dt.year ++ '-' :: pad2Chars dt.month ++ '-' ::
    pad2Chars dt.day ++ "T00:00:00".data)

/-- The ordinal suffix computed by the repository (three call sites):
`"th"` for 11..13, else by day mod 10. -/
def ordSuffixChars (day : Nat) : List Char :=
  if 11 ≤ day ∧ day ≤ 13 then "th".data
  else match day % 10 with
    | 1 => "st".data
    | 2 => "nd".data
    | 3 => "rd".data
    | _ => "th".data

/-- The display-date expression of `qdrant_service.store_meeting_chunks` and
`rag_service.query` / `rag_service.generate_summary`:
`d.strftime("%A %d%s %B, %Y").replace(d.strftime("%d"), d.strftime("%d") + suffix)`.
The `%s` conversion is not a documented Python directive; it is forwarded to
the platform strftime, which on glibc renders the seconds since the epoch of
the (timezone-dependent) local interpretation of the datetime.  That platform
string is the `epoch` parameter here; on every supported platform it is a
nonempty string. -/
def formatDateCode (dt : PyDate) (epoch : String) : String :=
  let dd := pad2Chars dt.day
  String.mk (pyReplace
    (weekdayChars dt ++ ' ' :: dd ++ epoch.data ++ ' ' :: monthChars dt.month ++
      ',' :: ' ' :: pad4Chars dt.year)
    dd (dd ++ ordSuffixChars dt.day))

/-- The display-date expression of `api_routes.upload_meeting_minutes` and
`api_routes.list_meetings`: `d.strftime(f"%A %d{suffix} %B, %Y")` with the
suffix baked into the format string. -/
def formatDateRoutes (dt : PyDate) : String :=
  String.mk (weekdayChars dt ++ ' ' :: pad2Chars dt.day ++
    ordSuffixChars dt.day ++ ' ' :: monthChars dt.month ++
    ',' :: ' ' :: pad4Chars dt.year)

/-! ### The regex engine for the fixed date patterns

Each pattern of `pdf_processor.PDFProcessor.date_patterns` and
`rag_service.RAGService.date_patterns` is embedded as a matcher that attempts
the pattern at one position and returns the three captured groups;
`reSearch` applies it at every position left to right, which is exactly
`re.search` for these patterns.  Greedy sub-expressions whose following
element is drawn from a disjoint character class (`\s+` before `\w`/`\d`,
`\w+` before `,?\s`, `\s*` before `\d`) are matched by maximal munch, which
is equivalent to the backtracking search there; every genuinely ambiguous
point (`\d{1,2}`, the optional `st|nd|rd|th`, the optional comma, the
optional `on` / weekday prefixes) is matched greedily with an explicit
second alternative, as the backtracking engine does. -/

/-- Captured groups of a three-group pattern. -/
def ReGroups := List Char × List Char × List Char

/-- Case-insensitive literal match (`re.IGNORECASE`); `lit` is lowercase.
Returns the rest of the input after the literal. -/
def matchLitCI : List Char → List Char → Option (List Char)
  | [], s => some s
  | _ :: _, [] => none
  | l :: ls, c :: cs => if c.toLower = l then matchLitCI ls cs else none

/-- `\s+` (maximal munch; always followed here by a class disjoint from
`\s`). -/
def spanSpace1 : List Char → Option (List Char)
  | [] => none
  | c :: t => if isPySpace c then some (t.dropWhile isPySpace) else none

/-- `\s*` (maximal munch). -/
def spanSpace0 (s : List Char) : List Char :=
  s.dropWhile isPySpace

/-- `(\w+)` capture (maximal munch; always followed here by `,?\s` or `\s`,
both disjoint from `\w`).  Returns the capture and the rest. -/
def takeWord : List Char → Option (List Char × List Char)
  | [] => none
  | c :: t =>
    if isWordChar c then
      some ((c :: t).takeWhile isWordChar, (c :: t).dropWhile isWordChar)
    else none

/-- `(?:st|nd|rd|th)`, case-insensitive, alternatives in pattern order. -/
def suffixOrd (s : List Char) : Option (List Char) :=
  matchLitCI "st".data s <|> matchLitCI "nd".data s <|>
    matchLitCI "rd".data s <|> matchLitCI "th".data s

/-- `,?\s+`: the greedy engine first tries to take the comma, then retries
without it. -/
def commaWs (s : List Char) : Option (List Char) :=
  (match s with
    | ',' :: t => spanSpace1 t
    | _ => none) <|> spanSpace1 s

/-- `(\d{4})` capture: exactly four digits. -/
def year4 : List Char → Option (List Char × List Char)
  | a :: b :: c :: d :: rest =>
    if isDigitChar a && isDigitChar b && isDigitChar c && isDigitChar d then
      some ([a, b, c, d], rest)
    else none
  | _ => none

/-- `(\d{1,2})` capture, greedy: two digits first, then one, each alternative
continued by `k day rest`. -/
def matchDay (k : List Char → List Char → Option ReGroups) :
    List Char → Option ReGroups
  | [] => none
  | [c1] => if isDigitChar c1 then k [c1] [] else none
  | c1 :: c2 :: rest =>
    if isDigitChar c1 then
      if isDigitChar c2 then k [c1, c2] rest <|> k [c1] (c2 :: rest)
      else k [c1] (c2 :: rest)
    else none

/-- First case-insensitive weekday-name literal that matches
(`Monday|Tuesday|...|Sunday`). -/
def matchWeekdayCI (s : List Char) : Option (List Char) :=
  matchLitCI "monday".data s <|> matchLitCI "tuesday".data s <|>
    matchLitCI "wednesday".data s <|> matchLitCI "thursday".data s <|>
    matchLitCI "friday".data s <|> matchLitCI "saturday".data s <|>
    matchLitCI "sunday".data s

/-- Tail `(?:st|nd|rd|th)\s+(\w+),?\s+(\d{4})` shared by the first two
ingestion patterns, applied after the day capture. -/
def tailAfterDay (day : List Char) (s : List Char) : Option ReGroups := do
  let s1 ← suffixOrd s
  let s2 ← spanSpace1 s1
  let (w, s3) ← takeWord s2
  let s4 ← commaWs s3
  let (y, _) ← year4 s4
  pure (day, w, y)

/-- Ingestion pattern 1:
`(?:Monday|...|Sunday)\s+(\d{1,2})(?:st|nd|rd|th)\s+(\w+),?\s+(\d{4})`. -/
def matchP1At (s : List Char) : Option ReGroups := do
  let s1 ← matchWeekdayCI s
  let s2 ← spanSpace1 s1
  matchDay tailAfterDay s2

/-- Ingestion pattern 2 (also query pattern 2):
`(\d{1,2})(?:st|nd|rd|th)\s+(\w+),?\s+(\d{4})`. -/
def matchP2At (s : List Char) : Option ReGroups :=
  matchDay tailAfterDay s

/-- Tail `(?:st|nd|rd|th),?\s+(\d{4})` of ingestion pattern 3, applied after
the word and day captures. -/
def tailP3AfterDay (w day : List Char) (s : List Char) : Option ReGroups := do
  let s1 ← suffixOrd s
  let s2 ← commaWs s1
  let (y, _) ← year4 s2
  pure (w, day, y)

/-- Ingestion pattern 3: `(\w+)\s+(\d{1,2})(?:st|nd|rd|th),?\s+(\d{4})`. -/
def matchP3At (s : List Char) : Option ReGroups := do
  let (w, s1) ← takeWord s
  let s2 ← spanSpace1 s1
  matchDay (tailP3AfterDay w) s2

/-- Tail `\s+(\w+),?\s+(\d{4})` of query pattern 1 after the optional ordinal
suffix. -/
def ragTailWordYear (day : List Char) (s : List Char) : Option ReGroups := do
  let s1 ← spanSpace1 s
  let (w, s2) ← takeWord s1
  let s3 ← commaWs s2
  let (y, _) ← year4 s3
  pure (day, w, y)

/-- `(?:st|nd|rd|th)?` of query pattern 1: greedy, with the empty alternative
second. -/
def ragAfterDay (day : List Char) (s : List Char) : Option ReGroups :=
  (suffixOrd s >>= ragTailWordYear day) <|> ragTailWordYear day s

/-- `\s*(\d{1,2})...` core of query pattern 1. -/
def ragP1Core (s : List Char) : Option ReGroups :=
  matchDay ragAfterDay (spanSpace0 s)

/-- `(?:Monday|...|Sunday)?` of query pattern 1: greedy optional weekday. -/
def ragP1AfterOn (s : List Char) : Option ReGroups :=
  (matchWeekdayCI s >>= ragP1Core) <|> ragP1Core s

/-- Query pattern 1:
`(?:on\s+)?(?:Monday|...|Sunday)?\s*(\d{1,2})(?:st|nd|rd|th)?\s+(\w+),?\s+(\d{4})`.
-/
def matchRagP1At (s : List Char) : Option ReGroups :=
  ((matchLitCI "on".data s >>= spanSpace1) >>= ragP1AfterOn) <|> ragP1AfterOn s

/-- Tail `(?:st|nd|rd|th)?,?\s+(\d{4})` of query pattern 3. -/
def ragTailP3 (w day : List Char) (s : List Char) : Option ReGroups :=
  let commaYear := fun (t : List Char) => do
    let s2 ← commaWs t
    let (y, _) ← year4 s2
    pure (w, day, y)
  (suffixOrd s >>= commaYear) <|> commaYear s

/-- Query pattern 3: `(\w+)\s+(\d{1,2})(?:st|nd|rd|th)?,?\s+(\d{4})`. -/
def matchRagP3At (s : List Char) : Option ReGroups := do
  let (w, s1) ← takeWord s
  let s2 ← spanSpace1 s1
  matchDay (ragTailP3 w) s2

/-- `re.search`: leftmost match of the pattern, trying every start position
left to right (including the end-of-string position). -/
def reSearch (m : List Char → Option ReGroups) : List Char → Option ReGroups
  | [] => m []
  | c :: t => m (c :: t) <|> reSearch m t

/-! ### Shared month table and group processing -/

/-- The 12-entry lowercase month-name table built in both services'
constructors. -/
def monthsAList : List (List Char × Nat) :=
  [("january".data, 1), ("february".data, 2), ("march".data, 3),
   ("april".data, 4), ("may".data, 5), ("june".data, 6), ("july".data, 7),
   ("august".data, 8), ("september".data, 9), ("october".data, 10),
   ("november".data, 11), ("december".data, 12)]

/-- The per-match body shared by both extractors: disambiguate the group
order by `groups[1].isalpha()`, convert day and year with `int()` (a raised
`ValueError` is `.error`), look the lowercased month name up in the table
(`.ok none` falls through to the next pattern), and construct the
`datetime` (`.ok none` on an invalid calendar date, again falling through).
-/
def processGroups (g : ReGroups) : Except String (Option PyDate) :=
  let (g0, g1, g2) := g
  if pyIsAlpha g1 then
    match pyInt g0 with
    | none => .error "ValueError: invalid literal for int() with base 10"
    | some day =>
      match pyInt g2 with
      | none => .error "ValueError: invalid literal for int() with base 10"
      | some year =>
        match List.lookup (pyLower g1) monthsAList with
        | none => .ok none
        | some month => .ok (mkDatetime year month day)
  else
    match pyInt g1 with
    | none => .error "ValueError: invalid literal for int() with base 10"
    | some day =>
      match pyInt g2 with
      | none => .error "ValueError: invalid literal for int() with base 10"
      | some year =>
        match List.lookup (pyLower g0) monthsAList with
        | none => .ok none
        | some month => .ok (mkDatetime year month day)

/-- The ordered ingestion pattern list of `PDFProcessor.date_patterns`. -/
def pdfPatterns : List (List Char → Option ReGroups) :=
  [matchP1At, matchP2At, matchP3At]

/-- The ordered query pattern list of `RAGService.date_patterns`. -/
def ragPatterns : List (List Char → Option ReGroups) :=
  [matchRagP1At, matchP2At, matchRagP3At]

/-- The pattern loop of `PDFProcessor.extract_date`: for each pattern in
order, search; on a match, process the groups.  A produced date returns, an
unknown month or invalid calendar date falls through to the next pattern, and
an uncaught `int()` error propagates (only the `datetime` constructor is
inside the `try`). -/
def extractLoop : List (List Char → Option ReGroups) → List Char →
    Except String (Option PyDate)
  | [], _ => .ok none
  | p :: ps, s =>
    match reSearch p s with
    | none => extractLoop ps s
    | some g =>
      match processGroups g with
      | .error e => .error e
      | .ok (some d) => .ok (some d)
      | .ok none => extractLoop ps s

namespace PDFProcessor

/-- `PDFProcessor.extract_date`: `.ok (some d)` for a returned datetime,
`.ok none` for the `return None` fall-through, `.error` for an uncaught
exception. -/
def extract_date (text : String) : Except String (Option PyDate) :=
  extractLoop pdfPatterns text.data

end PDFProcessor

/-- The pattern loop of `RAGService.extract_date_from_query`: identical to
the ingestion loop except that the whole per-match body sits inside
`try ... except (ValueError, KeyError): continue`, so a conversion error also
falls through to the next pattern and the function is total. -/
def extractLoopRag : List (List Char → Option ReGroups) → List Char →
    Option PyDate
  | [], _ => none
  | p :: ps, s =>
    match reSearch p s with
    | none => extractLoopRag ps s
    | some g =>
      match processGroups g with
      | .error _ => extractLoopRag ps s
      | .ok (some d) => some d
      | .ok none => extractLoopRag ps s

namespace RAGService

/-- `RAGService.extract_date_from_query`. -/
def extract_date_from_query (query : String) : Option PyDate :=
  extractLoopRag ragPatterns query.data

end RAGService

/-! ### Document chunker (`PDFProcessor.chunk_text`) -/

/-- The index sequence of Python `range(0, n, step)` for a positive `step`:
`0, step, 2*step, ...` while below `n` (`ceil(n/step)` terms). -/
def chunkStarts (n step : Nat) : List Nat :=
  List.range' 0 ((n + step - 1) / step) step

namespace PDFProcessor

/-- `PDFProcessor.chunk_text`: split into whitespace-delimited words, walk
`range(0, len(words), chunk_size - overlap)`, join each `words[i : i + chunk_size]`
window with spaces and keep it when its `strip()` is nonempty.  Python
validates only the range step: a zero step (`overlap = chunk_size`) raises
`ValueError`, a negative step (`overlap > chunk_size`) yields an empty range
and hence an empty chunk list. -/
def chunk_text (text : String) (chunk_size overlap : Nat) :
    Except String (List String) :=
  if (chunk_size : Int) - (overlap : Int) = 0 then
    .error "range() arg 3 must not be zero"
  else
    .ok ((if (chunk_size : Int) - (overlap : Int) < 0 then []
          else chunkStarts (pySplit text.data).length (chunk_size - overlap)).filterMap
      fun i =>
        let chunk := joinSpace (((pySplit text.data).drop i).take chunk_size)
        if (pyStrip chunk).isEmpty then none else some (String.mk chunk))

end PDFProcessor

/-! ### Embedding gateway (`QdrantService.generate_embedding`) -/

/-- JSON values, as `response.json()` produces them (numbers as `Rat`, the
exact stand-in for the transported float literals). -/
inductive JVal where
  | null
  | bool (b : Bool)
  | num (q : Rat)
  | str (s : String)
  | arr (elems : List JVal)
  | obj (fields : List (String × JVal))

/-- Outcome of the HuggingFace inference POST as the `try` block observes it:
a 2xx response with a parsed JSON body, a non-2xx status
(`raise_for_status`), a transport error, or an unparseable body
(`response.json()` raising). -/
inductive HFOutcome where
  | ok (body : JVal)
  | errStatus
  | netErr
  | badJson

namespace QdrantService

/-- `QdrantService.vector_size`: dimension of all-MiniLM-L6-v2. -/
def vector_size : Nat := 384

/-- `QdrantService.generate_embedding`: on success, unwrap a batch-of-one
(`embedding[0]` when the first element is itself a list, for a nonempty list
body) and return the body otherwise unchanged; on any exception in the
`try` block, return the zero vector of the configured dimensionality.  The
function itself never raises (`except Exception` covers the whole body). -/
def generate_embedding (resp : HFOutcome) : JVal :=
  match resp with
  | .ok body =>
    match body with
    | .arr (first :: rest) =>
      match first with
      | .arr inner => .arr inner
      | _ => .arr (first :: rest)
    | other => other
  | _ => .arr (List.replicate vector_size (.num 0))

end QdrantService

/-! ### Vector store (`QdrantService` points, search and deletion) -/

/-- A payload value: the stored fields are strings and integers, plus the
similarity score re-exposed by search formatting. -/
inductive PVal where
  | str (s : String)
  | num (q : Rat)
deriving DecidableEq

/-- A Qdrant point as `store_meeting_chunks` builds it. -/
structure QPoint where
  id : String
  vector : List Rat
  payload : List (String × PVal)
deriving DecidableEq

/-- A search result as `search_relevant_chunks` formats it: a dict whose
values come from `payload.get(key)` (hence `Option PVal`, `none` being
Python `None` for an absent key). -/
abbrev SearchResult := List (String × Option PVal)

namespace QdrantService

/-- `QdrantService.store_meeting_chunks`: one point per chunk, id
`f"{meeting_db_id}_{idx}"`, vector from the embedding gateway (a parameter
here), and the six-field payload; returns the points and the
`f"meeting_{meeting_db_id}"` namespace string handed back to the caller.
`epoch` is the platform expansion of the stray `%s` in the display-date
format (see `formatDateCode`). -/
def store_meeting_chunks (embed : String → List Rat) (epoch : String)
    (chunks : List String) (meeting_date : PyDate) (filename : String)
    (meeting_db_id : Nat) : List QPoint × String :=
  (chunks.enum.map (fun ic =>
    ⟨natToStr meeting_db_id ++ "_" ++ natToStr ic.1,
     embed ic.2,
     [("text", PVal.str ic.2),
      ("meeting_date", PVal.str (isoformat meeting_date)),
      ("meeting_date_formatted", PVal.str (formatDateCode meeting_date epoch)),
      ("filename", PVal.str filename),
      ("chunk_index", PVal.num ic.1),
      ("meeting_db_id", PVal.num meeting_db_id)]⟩),
   "meeting_" ++ natToStr meeting_db_id)

/-- The exact-match date filter built by `search_relevant_chunks`: with a
date, only points whose `meeting_date` payload equals its isoformat pass;
with no date, every point passes. -/
def matchesFilter (filt : Option String) (p : QPoint) : Bool :=
  match filt with
  | none => true
  | some iso => if p.payload.lookup "meeting_date" = some (PVal.str iso) then true else false

/-- Insert a point into a score-descending list (the ranking the vector
store applies to the filtered points). -/
def insertSorted (score : QPoint → Rat) (p : QPoint) :
    List QPoint → List QPoint
  | [] => [p]
  | q :: t => if score q < score p then p :: q :: t else q :: insertSorted score p t

/-- Rank a point list by descending score. -/
def sortByScore (score : QPoint → Rat) (l : List QPoint) : List QPoint :=
  l.foldr (insertSorted score) []

/-- `QdrantService.search_relevant_chunks`: the store returns the `top_k`
highest-scoring points among those passing the exact-date filter (the score
function abstracts cosine similarity against the query embedding), and the
service re-formats each hit as a dict of `payload.get` values plus the
score.  The stored `filename` and `meeting_db_id` fields are not copied into
the formatted result. -/
def search_relevant_chunks (store : List QPoint) (score : QPoint → Rat)
    (meeting_date : Option PyDate) (top_k : Nat) : List SearchResult :=
  let search_filter : Option String := meeting_date.map isoformat
  let results := (sortByScore score (store.filter (matchesFilter search_filter))).take top_k
  results.map fun r =>
    [("text", r.payload.lookup "text"),
     ("meeting_date", r.payload.lookup "meeting_date"),
     ("meeting_date_formatted", r.payload.lookup "meeting_date_formatted"),
     ("score", some (PVal.num (score r))),
     ("chunk_index", r.payload.lookup "chunk_index")]

/-- `QdrantService.delete_meeting`: parse the numeric id back out of the
namespace string with `int(meeting_id.replace("meeting_", ""))` and issue a
deletion whose filter exact-matches the `meeting_db_id` payload field against
it.  The returned pair is that filter (key, matched value); a failed `int()`
is re-raised. -/
def delete_meeting (meeting_id : String) : Except String (String × Int) :=
  match pyInt (pyReplace meeting_id.data "meeting_".data []) with
  | none => .error "ValueError: invalid literal for int() with base 10"
  | some meeting_db_id => .ok ("meeting_db_id", meeting_db_id)

end QdrantService

/-! ### Retrieval orchestrator (`RAGService.query`) -/

/-- The dict returned by `RAGService.query`. -/
structure QueryResult where
  answer : String
  meeting_date : Option String
  meeting_date_formatted : Option PVal
  sources : List SearchResult
deriving DecidableEq

/-- Outcomes of the external calls made along one `query` invocation:
`most_recent` is `get_most_recent_meeting_date()` (it can raise, via the
unguarded Qdrant search, or resolve to a date or to nothing), `search` is
`search_relevant_chunks(...)` (it can raise likewise), `generation` is the
Groq chat-completion call (its failure is the one the code guards), and
`epoch` is the platform expansion of the `%s` in the display-date format. -/
structure QueryEnv where
  most_recent : Except String (Option PyDate)
  search : Except String (List SearchResult)
  generation : Except String String
  epoch : String

namespace RAGService

/-- `RAGService.query`: resolve the date (query text first, then the
most-recent lookup), return the fixed no-data answer if none; search, and
return the no-match answer naming the (code-)formatted date on zero chunks;
otherwise build the grounding prompt (reading the `text` of each chunk and
`meeting_date_formatted` of the first chunk, whose absence would be an uncaught
`KeyError`) and call generation, converting only a generation failure into
an error-describing answer that still carries the resolved date and the
source chunks. -/
def query (user_query : String) (env : QueryEnv) : Except String QueryResult :=
  let extracted := extract_date_from_query user_query
  let resolved : Except String (Option PyDate) :=
    match extracted with
    | some d => .ok (some d)
    | none => env.most_recent
  match resolved with
  | .error e => .error e
  | .ok none =>
    .ok ⟨"No meeting minutes are available in the system yet. Please contact an administrator to upload meeting minutes.",
      none, none, []⟩
  | .ok (some query_date) =>
    match env.search with
    | .error e => .error e
    | .ok relevant_chunks =>
      match relevant_chunks with
      | [] =>
        .ok ⟨"No information found for the meeting on " ++
            formatDateCode query_date env.epoch ++
            ". Please verify the date or try a different query.",
          some (isoformat query_date), none, []⟩
      | first :: rest =>
        if (first :: rest).all (fun c => (c.lookup "text").isSome) then
          match first.lookup "meeting_date_formatted" with
          | none => .error "KeyError: meeting_date_formatted"
          | some fm =>
            match env.generation with
            | .ok content =>
              .ok ⟨String.mk (pyStrip content.data),
                some (isoformat query_date), fm, first :: rest⟩
            | .error e =>
              .ok ⟨"An error occurred while processing your query: " ++ e,
                some (isoformat query_date), fm, first :: rest⟩
        else .error "KeyError: text"

end RAGService

/-! ### Lemmas: `pyReplace` -/

theorem isPrefixOf_self_append (l t : List Char) : l.isPrefixOf (l ++ t) = true := by
  simp only [List.isPrefixOf_iff_prefix]
  exact List.prefix_append l t

theorem pyReplace_cons_ne {c p : Char} (ps rep s : List Char) (h : c ≠ p) :
    pyReplace (c :: s) (p :: ps) rep = c :: pyReplace s (p :: ps) rep := by
  have h2 : ¬ ((p :: ps).isPrefixOf (c :: s) = true) := by
    simp only [List.isPrefixOf_iff_prefix, List.cons_prefix_cons]
    rintro ⟨rfl, -⟩
    exact h rfl
  rw [pyReplace, if_neg h2]

theorem pyReplace_pat_start (p : Char) (ps rep s : List Char) :
    pyReplace ((p :: ps) ++ s) (p :: ps) rep = rep ++ pyReplace s (p :: ps) rep := by
  rw [List.cons_append, pyReplace]
  have h1 : (p :: ps).isPrefixOf (p :: (ps ++ s)) = true := by
    have h0 := isPrefixOf_self_append (p :: ps) s
    simp only [List.cons_append] at h0
    exact h0
  rw [if_pos h1, List.drop_left]

theorem pyReplace_length_ge (pat rep : List Char) (h : pat.length ≤ rep.length) :
    ∀ (n : Nat) (s : List Char), s.length ≤ n → s.length ≤ (pyReplace s pat rep).length := by
  intro n
  induction n with
  | zero =>
    intro s hs
    have : s = [] := List.length_eq_zero.mp (Nat.le_zero.mp hs)
    subst this
    exact Nat.zero_le _
  | succ m ih =>
    intro s hs
    match s, pat with
    | [], _ => exact Nat.zero_le _
    | c :: s', [] =>
      rw [pyReplace]
    | c :: s', p :: ps =>
      rw [pyReplace]
      by_cases hp : (p :: ps).isPrefixOf (c :: s') = true
      · have hlen : (p :: ps).length ≤ (c :: s').length :=
          (List.isPrefixOf_iff_prefix.mp hp).length_le
        have hdrop : (s'.drop ps.length).length ≤ m := by
          have := List.length_drop ps.length s'
          simp only [List.length_cons] at hs
          omega
        have hrec := ih (s'.drop ps.length) hdrop
        have hdl := List.length_drop ps.length s'
        have hpl := h
        simp only [List.length_cons] at hlen
        rw [if_pos hp]
        simp only [List.length_append, List.length_cons] at *
        omega
      · have hrec := ih s' (by simp only [List.length_cons] at hs; omega)
        rw [if_neg hp]
        simp only [List.length_cons]
        omega

/-! ### Lemmas: decimal rendering and `int()` round-trip -/

theorem digitChar_spec (d : Nat) (hd : d < 10) :
    isDigitChar (digitChar d) = true ∧ digitChar d ≠ '_' ∧ digitChar d ≠ '-' ∧
      digitChar d ≠ '+' ∧ digitChar d ≠ 'm' ∧ digitVal (digitChar d) = d := by
  interval_cases d <;> exact ⟨by decide, by decide, by decide, by decide, by decide, by decide⟩

theorem natToCharsAux_eq_digits :
    ∀ (fuel n : Nat) (acc : List Char), n ≤ fuel →
      natToCharsAux fuel n acc = ((Nat.digits 10 n).reverse.map digitChar) ++ acc := by
  intro fuel
  induction fuel with
  | zero =>
    intro n acc hn
    interval_cases n
    simp [natToCharsAux]
  | succ m ih =>
    intro n acc hn
    rw [natToCharsAux]
    by_cases h0 : n = 0
    · subst h0
      simp
    · have hrec : n / 10 ≤ m := by
        have : n / 10 < n := Nat.div_lt_self (Nat.pos_of_ne_zero h0) (by norm_num)
        omega
      rw [if_neg h0, ih (n / 10) _ hrec,
        Nat.digits_def' (by norm_num : 1 < 10) (Nat.pos_of_ne_zero h0)]
      simp [List.append_assoc]

theorem natToChars_eq_digits (n : Nat) (hn : n ≠ 0) :
    natToChars n = (Nat.digits 10 n).reverse.map digitChar := by
  rw [natToChars, if_neg hn, natToCharsAux_eq_digits n n [] le_rfl, List.append_nil]

theorem natToChars_all_digits (n : Nat) : ∀ c ∈ natToChars n, isDigitChar c = true := by
  by_cases hn : n = 0
  · subst hn
    decide
  · rw [natToChars_eq_digits n hn]
    intro c hc
    obtain ⟨d, hd, rfl⟩ := List.mem_map.mp hc
    exact (digitChar_spec d (Nat.digits_lt_base (by norm_num) (List.mem_reverse.mp hd))).1

theorem goDigits_digit_run :
    ∀ (L : List Nat) (acc : Nat), (∀ d ∈ L, d < 10) →
      goDigits acc (L.map digitChar) = some (L.foldl (fun a d => a * 10 + d) acc) := by
  intro L
  induction L with
  | nil => intro acc _; rfl
  | cons d L' ih =>
    intro acc hL
    have hd : d < 10 := hL d (List.mem_cons_self d L')
    obtain ⟨hdig, hus, _, _, _, hval⟩ := digitChar_spec d hd
    rw [List.map_cons]
    show goDigits acc (digitChar d :: L'.map digitChar) = _
    unfold goDigits
    rw [if_neg hus, if_pos hdig, hval]
    exact ih _ (fun x hx => hL x (List.mem_cons_of_mem d hx))

theorem foldl_reverse_ofDigits :
    ∀ (L : List Nat) (acc : Nat),
      L.reverse.foldl (fun a d => a * 10 + d) acc = acc * 10 ^ L.length + Nat.ofDigits 10 L := by
  intro L
  induction L with
  | nil => intro acc; simp [Nat.ofDigits]
  | cons d L' ih =>
    intro acc
    rw [List.reverse_cons, List.foldl_append]
    simp only [List.foldl_cons, List.foldl_nil, ih, Nat.ofDigits_cons, List.length_cons]
    ring

theorem pyIntDigits_natToChars (n : Nat) : pyIntDigits (natToChars n) = some n := by
  by_cases hn : n = 0
  · subst hn
    decide
  · rw [natToChars_eq_digits n hn]
    have hne : Nat.digits 10 n ≠ [] := Nat.digits_ne_nil_iff_ne_zero.mpr hn
    have hlt : ∀ d ∈ (Nat.digits 10 n).reverse, d < 10 := fun d hd =>
      Nat.digits_lt_base (by norm_num) (List.mem_reverse.mp hd)
    obtain ⟨d, L', hDL⟩ : ∃ d L', (Nat.digits 10 n).reverse = d :: L' := by
      cases hrev : (Nat.digits 10 n).reverse with
      | nil =>
        have : Nat.digits 10 n = [] := by simpa using congrArg List.reverse hrev
        exact absurd this hne
      | cons d L' => exact ⟨d, L', rfl⟩
    rw [hDL, List.map_cons, pyIntDigits]
    have hd : d < 10 := hlt d (hDL ▸ List.mem_cons_self d L')
    obtain ⟨hdig, _, _, _, _, hval⟩ := digitChar_spec d hd
    rw [if_pos hdig, hval, goDigits_digit_run L' d
      (fun x hx => hlt x (hDL ▸ List.mem_cons_of_mem d hx))]
    have h1 : (d :: L').foldl (fun a x => a * 10 + x) 0 = L'.foldl (fun a x => a * 10 + x) d := by
      simp
    have h2 : (d :: L').foldl (fun a x => a * 10 + x) 0 = n := by
      rw [← hDL]
      have := foldl_reverse_ofDigits (Nat.digits 10 n) 0
      simpa [Nat.ofDigits_digits] using this
    rw [← h1, h2]

theorem natToChars_ne_nil (n : Nat) : natToChars n ≠ [] := by
  by_cases hn : n = 0
  · subst hn; decide
  · rw [natToChars_eq_digits n hn]
    intro h
    have hlen := congrArg List.length h
    simp at hlen
    exact (Nat.digits_ne_nil_iff_ne_zero.mpr hn) hlen

theorem pyInt_natToChars (n : Nat) : pyInt (natToChars n) = some (n : Int) := by
  obtain ⟨c, cs, hcs⟩ : ∃ c cs, natToChars n = c :: cs := by
    cases h : natToChars n with
    | nil => exact absurd h (natToChars_ne_nil n)
    | cons c cs => exact ⟨c, cs, rfl⟩
  have hcdig : isDigitChar c = true :=
    natToChars_all_digits n c (hcs ▸ List.mem_cons_self c cs)
  have hc1 : c ≠ '-' := by intro h; rw [h] at hcdig; exact absurd hcdig (by decide)
  have hc2 : c ≠ '+' := by intro h; rw [h] at hcdig; exact absurd hcdig (by decide)
  rw [hcs, pyInt, if_neg hc1, if_neg hc2, ← hcs, pyIntDigits_natToChars]
  rfl

/-! ### Lemmas: words and chunk windows -/

theorem filterMap_eq_map_of {α β : Type} (l : List α) (f : α → Option β) (g : α → β)
    (h : ∀ a ∈ l, f a = some (g a)) : l.filterMap f = l.map g := by
  induction l with
  | nil => rfl
  | cons a t ih =>
    rw [List.filterMap_cons, h a (List.mem_cons_self a t), List.map_cons,
      ih (fun x hx => h x (List.mem_cons_of_mem a hx))]

theorem pySplitAux_words :
    ∀ (s acc : List Char), (∀ c ∈ acc, isPySpace c = false) →
      ∀ w ∈ pySplitAux s acc, w ≠ [] ∧ ∀ c ∈ w, isPySpace c = false := by
  intro s
  induction s with
  | nil =>
    intro acc hacc w hw
    rw [pySplitAux] at hw
    by_cases he : acc.isEmpty
    · rw [if_pos he] at hw
      exact absurd hw (List.not_mem_nil w)
    · rw [if_neg he] at hw
      have hw' : w = acc.reverse := by simpa using hw
      subst hw'
      refine ⟨?_, ?_⟩
      · simpa using fun h => he (by simp [h, List.isEmpty_iff])
      · intro c hc
        exact hacc c (List.mem_reverse.mp hc)
  | cons c t ih =>
    intro acc hacc w hw
    rw [pySplitAux] at hw
    by_cases hc : isPySpace c
    · rw [if_pos hc] at hw
      by_cases he : acc.isEmpty
      · rw [if_pos he] at hw
        exact ih [] (by simp) w hw
      · rw [if_neg he] at hw
        rcases List.mem_cons.mp hw with hw1 | hw2
        · subst hw1
          refine ⟨?_, ?_⟩
          · simpa using fun h => he (by simp [h, List.isEmpty_iff])
          · intro x hx
            exact hacc x (List.mem_reverse.mp hx)
        · exact ih [] (by simp) w hw2
    · rw [if_neg hc] at hw
      refine ih (c :: acc) ?_ w hw
      intro x hx
      rcases List.mem_cons.mp hx with rfl | hx2
      · simpa using hc
      · exact hacc x hx2

theorem pySplit_words (s : List Char) :
    ∀ w ∈ pySplit s, w ≠ [] ∧ ∀ c ∈ w, isPySpace c = false :=
  pySplitAux_words s [] (by simp)

theorem joinSpace_cons (w : List Char) (ws : List (List Char)) :
    ∃ r, joinSpace (w :: ws) = w ++ r := by
  cases ws with
  | nil => exact ⟨[], by simp [joinSpace]⟩
  | cons w2 ws2 => exact ⟨' ' :: joinSpace (w2 :: ws2), rfl⟩

theorem pyStrip_cons_ne (c : Char) (s : List Char) (hc : isPySpace c = false) :
    (pyStrip (c :: s)).isEmpty = false := by
  rw [pyStrip, List.dropWhile_cons, hc]
  simp only [Bool.false_eq_true, if_false, List.isEmpty_eq_false, ne_eq,
    List.reverse_eq_nil_iff]
  intro hnil
  rw [List.dropWhile_eq_nil_iff] at hnil
  have hcmem : c ∈ (c :: s).reverse := List.mem_reverse.mpr (List.mem_cons_self c s)
  have := hnil c hcmem
  rw [hc] at this
  exact absurd this (by decide)

theorem chunkStarts_lt (n step : Nat) (hstep : 1 ≤ step) :
    ∀ i ∈ chunkStarts n step, step ∣ i ∧ i < n := by
  intro i hi
  rw [chunkStarts, List.mem_range'] at hi
  obtain ⟨k, hk, rfl⟩ := hi
  refine ⟨⟨k, by ring⟩, ?_⟩
  have h1 : ((n + step - 1) / step) * step ≤ n + step - 1 := Nat.div_mul_le_self _ _
  have h2 : (k + 1) * step ≤ ((n + step - 1) / step) * step :=
    Nat.mul_le_mul_right step hk
  have h3 : (k + 1) * step = k * step + step := by ring
  have h4 : step * k = k * step := by ring
  omega

theorem chunkStarts_length (n step : Nat) :
    (chunkStarts n step).length = (n + step - 1) / step := by
  rw [chunkStarts, List.length_range']

theorem window_strip_ne (td : List Char) (i w : Nat)
    (hi : i < (pySplit td).length) (hw : 1 ≤ w) :
    (pyStrip (joinSpace (((pySplit td).drop i).take w))).isEmpty = false := by
  have hd : (pySplit td).drop i ≠ [] := by
    intro hnil
    have := congrArg List.length hnil
    simp only [List.length_drop, List.length_nil] at this
    omega
  obtain ⟨w0, ws, hws⟩ := List.exists_cons_of_ne_nil hd
  obtain ⟨w', rfl⟩ : ∃ w', w = w' + 1 := ⟨w - 1, by omega⟩
  rw [hws, List.take_succ_cons]
  have hw0 : w0 ∈ pySplit td := by
    have hmem : w0 ∈ (pySplit td).drop i := hws ▸ List.mem_cons_self w0 ws
    exact (List.drop_sublist i (pySplit td)).mem hmem
  obtain ⟨hne, hch⟩ := pySplit_words td w0 hw0
  obtain ⟨c0, w0', rfl⟩ := List.exists_cons_of_ne_nil hne
  obtain ⟨r, hr⟩ := joinSpace_cons (c0 :: w0') (ws.take w')
  rw [hr, List.cons_append]
  exact pyStrip_cons_ne c0 (w0' ++ r) (hch c0 (List.mem_cons_self c0 w0'))

theorem chunk_text_of_lt (text : String) (w o : Nat) (h : o < w) :
    PDFProcessor.chunk_text text w o =
      .ok ((chunkStarts (pySplit text.data).length (w - o)).map
        (fun i => String.mk (joinSpace (((pySplit text.data).drop i).take w)))) := by
  have h1 : ¬ ((w : Int) - (o : Int) = 0) := by omega
  have h2 : ¬ ((w : Int) - (o : Int) < 0) := by omega
  rw [PDFProcessor.chunk_text, if_neg h1, if_neg h2]
  congr 1
  refine filterMap_eq_map_of _ _ _ ?_
  intro i hi
  have hstep : 1 ≤ w - o := by omega
  have hiw := (chunkStarts_lt (pySplit text.data).length (w - o) hstep i hi).2
  have hne := window_strip_ne text.data i w hiw (by omega)
  show (if (pyStrip (joinSpace (((pySplit text.data).drop i).take w))).isEmpty then none
      else some (String.mk (joinSpace (((pySplit text.data).drop i).take w)))) = _
  rw [hne]
  simp

theorem chunk_string_ne_empty (td : List Char) (i w : Nat)
    (hi : i < (pySplit td).length) (hw : 1 ≤ w) :
    String.mk (joinSpace (((pySplit td).drop i).take w)) ≠ "" := by
  intro heq
  have hnil : joinSpace (((pySplit td).drop i).take w) = [] := by
    have := congrArg String.data heq
    simpa using this
  have hne := window_strip_ne td i w hi hw
  rw [hnil] at hne
  simp [pyStrip] at hne

/-- A 2400-word concrete document: single-letter words separated by single
spaces. -/
def mkWords : Nat → List Char
  | 0 => []
  | n + 1 => if n = 0 then ['w'] else 'w' :: ' ' :: mkWords n

theorem pySplit_mkWords : ∀ n, pySplit (mkWords n) = List.replicate n (['w'] : List Char) := by
  intro n
  induction n with
  | zero => rfl
  | succ m ih =>
    by_cases hm : m = 0
    · subst hm; rfl
    · have hmk : mkWords (m + 1) = 'w' :: ' ' :: mkWords m := by
        rw [mkWords, if_neg hm]
      rw [hmk]
      show pySplitAux ('w' :: ' ' :: mkWords m) [] = _
      rw [pySplitAux, if_neg (by decide), pySplitAux, if_pos (by decide),
        if_neg (by decide)]
      rw [List.replicate_succ]
      exact congrArg (List.cons ['w']) ih

/-! ### Claim theorems -/

/-- C1: the three supported date-phrase shapes (weekday-prefixed
day-month-year, day-month-year, month-day-year) are applied in order and
case-insensitively by `extract_date`, the first successful match is
returned, and each of the three example phrases — including an all-caps
variant showing case-insensitivity — yields the calendar date 2025-10-26.
The final conjunct is the first-match property: whenever the first pattern
matches and its groups process to a date, that date is the result, whatever
the later patterns would do. -/
theorem claim1 :
    PDFProcessor.extract_date "Sunday 26th October, 2025" =
      .ok (some ⟨2025, 10, 26⟩) ∧
    PDFProcessor.extract_date "26th October, 2025" = .ok (some ⟨2025, 10, 26⟩) ∧
    PDFProcessor.extract_date "October 26th, 2025" = .ok (some ⟨2025, 10, 26⟩) ∧
    PDFProcessor.extract_date "SUNDAY 26TH OCTOBER, 2025" =
      .ok (some ⟨2025, 10, 26⟩) ∧
    (∀ (t : String) (g : ReGroups) (d : PyDate),
      reSearch matchP1At t.data = some g → processGroups g = .ok (some d) →
      PDFProcessor.extract_date t = .ok (some d)) := by
  refine ⟨rfl, rfl, rfl, rfl, ?_⟩
  intro t g d h1 h2
  show extractLoop pdfPatterns t.data = .ok (some d)
  rw [pdfPatterns, extractLoop, h1]
  simp only [h2]

theorem claim1_witness :
    PDFProcessor.extract_date "Meeting held Sunday 26th October, 2025 at noon" =
      .ok (some ⟨2025, 10, 26⟩) :=
  claim1.2.2.2.2 "Meeting held Sunday 26th October, 2025 at noon"
    ("26".data, "October".data, "2025".data) ⟨2025, 10, 26⟩ rfl rfl

/-- C7 counterexample: the claim says every matched phrase whose day/month
combination is not a valid calendar date is skipped without crashing, but on
`"26th x1, 2025"` — matched by the second pattern with month token `"x1"`,
certainly not a valid month — `extract_date` raises: `"x1".isalpha()` is
false, so the code takes the month-day-year branch and calls `int("x1")`,
which raises a `ValueError` outside the `try` block (only the `datetime`
constructor is guarded). -/
theorem claim7_cex :
    PDFProcessor.extract_date "26th x1, 2025" =
      .error "ValueError: invalid literal for int() with base 10" := rfl

/-- C7 (amended): `extract_date` returns NotFound when no pattern matches
(first, concretely, and last, for every such text); a matched phrase whose
month name is alphabetic but unknown (`"32nd Tetuary, 2025"`) or whose
resolved numeric date is impossible (`"30th February, ..."`, which then
falls through to the third pattern and picks up `"February 1st, 2025"`) is
skipped without crashing.  A matched phrase whose month token mixes letters
and digits still crashes (see the counterexample), so the no-crash guarantee
holds only for those two invalid-date shapes. -/
theorem claim7_amended :
    PDFProcessor.extract_date "no dates in this text at all" = .ok none ∧
    PDFProcessor.extract_date "32nd Tetuary, 2025" = .ok none ∧
    PDFProcessor.extract_date "30th February, 2025 February 1st, 2025" =
      .ok (some ⟨2025, 2, 1⟩) ∧
    (∀ t : String, reSearch matchP1At t.data = none →
      reSearch matchP2At t.data = none → reSearch matchP3At t.data = none →
      PDFProcessor.extract_date t = .ok none) := by
  refine ⟨rfl, rfl, rfl, ?_⟩
  intro t h1 h2 h3
  show extractLoop pdfPatterns t.data = .ok none
  rw [pdfPatterns, extractLoop, h1, extractLoop, h2, extractLoop, h3, extractLoop]

theorem claim7_witness : PDFProcessor.extract_date "agenda items" = .ok none :=
  claim7_amended.2.2.2 "agenda items" rfl rfl rfl

/-- C2: for `0 < overlap < window` the chunker splits into whitespace
words and emits the window starting at every multiple of
`window - overlap` below the word count, each of up to `window` words,
none of them dropped as empty (the strip test never fires on a real
window); and on any 2400-word text with window 1000 / overlap 200 it
yields exactly the three windows at word offsets 0, 800 and 1600, where
each later chunk starts 200 words before the end of the previous chunk
(`min (start + 1000) 2400`), and no chunk is the empty string. -/
theorem claim2 :
    (∀ (text : String) (w o : Nat), 0 < o → o < w →
      PDFProcessor.chunk_text text w o =
        .ok ((chunkStarts (pySplit text.data).length (w - o)).map
          (fun i => String.mk (joinSpace (((pySplit text.data).drop i).take w)))) ∧
      (∀ i ∈ chunkStarts (pySplit text.data).length (w - o),
        (w - o) ∣ i ∧ i < (pySplit text.data).length) ∧
      (chunkStarts (pySplit text.data).length (w - o)).length =
        ((pySplit text.data).length + (w - o) - 1) / (w - o) ∧
      (∀ c ∈ (chunkStarts (pySplit text.data).length (w - o)).map
          (fun i => String.mk (joinSpace (((pySplit text.data).drop i).take w))),
        c ≠ "")) ∧
    (∀ text : String, (pySplit text.data).length = 2400 →
      PDFProcessor.chunk_text text 1000 200 =
        .ok [String.mk (joinSpace (((pySplit text.data).drop 0).take 1000)),
             String.mk (joinSpace (((pySplit text.data).drop 800).take 1000)),
             String.mk (joinSpace (((pySplit text.data).drop 1600).take 1000))] ∧
      800 + 200 = min (0 + 1000) 2400 ∧ 1600 + 200 = min (800 + 1000) 2400 ∧
      String.mk (joinSpace (((pySplit text.data).drop 0).take 1000)) ≠ "" ∧
      String.mk (joinSpace (((pySplit text.data).drop 800).take 1000)) ≠ "" ∧
      String.mk (joinSpace (((pySplit text.data).drop 1600).take 1000)) ≠ "") := by
  constructor
  · intro text w o ho how
    refine ⟨chunk_text_of_lt text w o how, chunkStarts_lt _ _ (by omega),
      chunkStarts_length _ _, ?_⟩
    intro c hc
    obtain ⟨i, hi, rfl⟩ := List.mem_map.mp hc
    have hiw := (chunkStarts_lt _ _ (by omega) i hi).2
    exact chunk_string_ne_empty text.data i w hiw (by omega)
  · intro text hlen
    have h1 := chunk_text_of_lt text 1000 200 (by omega)
    rw [hlen] at h1
    have hcs : chunkStarts 2400 800 = [0, 800, 1600] := rfl
    rw [hcs] at h1
    simp only [List.map_cons, List.map_nil] at h1
    refine ⟨h1, by norm_num, by norm_num, ?_, ?_, ?_⟩
    · exact chunk_string_ne_empty text.data 0 1000 (by omega) (by omega)
    · exact chunk_string_ne_empty text.data 800 1000 (by omega) (by omega)
    · exact chunk_string_ne_empty text.data 1600 1000 (by omega) (by omega)

theorem claim2_witness :
    PDFProcessor.chunk_text (String.mk (mkWords 2400)) 1000 200 =
      .ok [String.mk (joinSpace (((pySplit (String.mk (mkWords 2400)).data).drop 0).take 1000)),
           String.mk (joinSpace (((pySplit (String.mk (mkWords 2400)).data).drop 800).take 1000)),
           String.mk (joinSpace (((pySplit (String.mk (mkWords 2400)).data).drop 1600).take 1000))] :=
  (claim2.2 (String.mk (mkWords 2400))
    (by show (pySplit (mkWords 2400)).length = 2400
        rw [pySplit_mkWords, List.length_replicate])).1

/-- C8 counterexample: with `overlap > window` (here 3 > 2) the chunker
does not reject the configuration — the Python range step is negative, the
range is empty, and an ordinary (empty) chunk list is returned for a
nonempty document. -/
theorem claim8_cex :
    PDFProcessor.chunk_text "alpha beta gamma" 2 3 = .ok [] := rfl

/-- C8 (amended): the configuration `overlap >= window` is not validated up
front.  Only the equality case is rejected, and then by accident: the step
`window - overlap` is zero and Python `range` itself raises `ValueError`.
For `overlap > window` the step is negative, `range` is empty, and
`chunk_text` silently returns the empty chunk list for every input text. -/
theorem claim8_amended :
    ∀ (text : String) (w o : Nat),
      (o = w →
        PDFProcessor.chunk_text text w o = .error "range() arg 3 must not be zero") ∧
      (w < o → PDFProcessor.chunk_text text w o = .ok []) := by
  intro text w o
  constructor
  · intro h
    subst h
    rw [PDFProcessor.chunk_text, if_pos (by omega)]
  · intro h
    rw [PDFProcessor.chunk_text, if_neg (by omega : ¬((w : Int) - (o : Int) = 0)),
      if_pos (by omega : (w : Int) - (o : Int) < 0)]
    simp

theorem claim8_witness :
    PDFProcessor.chunk_text "board minutes" 4 4 = .error "range() arg 3 must not be zero" ∧
    PDFProcessor.chunk_text "board minutes" 4 9 = .ok [] :=
  ⟨(claim8_amended "board minutes" 4 4).1 rfl,
   (claim8_amended "board minutes" 4 9).2 (by omega)⟩

/-- A flat JSON vector of floats of the given dimensionality. -/
def isFlatVec (j : JVal) (n : Nat) : Prop :=
  ∃ qs : List Rat, j = .arr (qs.map .num) ∧ qs.length = n

/-- C3: for a provider vector of the deployed dimensionality (384), the
gateway returns the flat vector unchanged, unwraps a batch-of-one to the
same flat vector, and maps every failure outcome (HTTP error status,
transport error, unparseable body) to the zero vector; each of these five
results is a flat 384-float vector, and the modelled function is total — no
outcome raises. -/
theorem claim3 :
    ∀ v : List Rat, v.length = QdrantService.vector_size →
      (QdrantService.generate_embedding (.ok (.arr (v.map .num))) =
          .arr (v.map .num) ∧
        QdrantService.generate_embedding (.ok (.arr [.arr (v.map .num)])) =
          .arr (v.map .num) ∧
        QdrantService.generate_embedding .errStatus =
          .arr (List.replicate QdrantService.vector_size (.num 0)) ∧
        QdrantService.generate_embedding .netErr =
          .arr (List.replicate QdrantService.vector_size (.num 0)) ∧
        QdrantService.generate_embedding .badJson =
          .arr (List.replicate QdrantService.vector_size (.num 0))) ∧
      isFlatVec (.arr (v.map .num)) QdrantService.vector_size ∧
      isFlatVec (.arr (List.replicate QdrantService.vector_size (.num 0)))
        QdrantService.vector_size := by
  intro v hv
  obtain ⟨a, v', rfl⟩ : ∃ a v', v = a :: v' := by
    cases v with
    | nil => simp [QdrantService.vector_size] at hv
    | cons a v' => exact ⟨a, v', rfl⟩
  refine ⟨⟨rfl, rfl, rfl, rfl, rfl⟩, ⟨a :: v', rfl, hv⟩,
    ⟨List.replicate QdrantService.vector_size 0, ?_, ?_⟩⟩
  · rw [List.map_replicate]
  · rw [List.length_replicate]

theorem claim3_witness :
    QdrantService.generate_embedding
        (.ok (.arr ((List.replicate 384 (1 : Rat)).map .num))) =
      .arr ((List.replicate 384 (1 : Rat)).map .num) :=
  (claim3 (List.replicate 384 (1 : Rat))
    (by rw [List.length_replicate]; rfl)).1.1

/-- C5: with no date extractable from the query and a most-recent lookup
resolving nothing, `query` returns the fixed no-data answer with empty
sources; with a resolved date but an empty filtered search result, it
returns the no-match answer naming the formatted date (the display string
the code computes, `formatDateCode`), again with empty sources. -/
theorem claim5 :
    (∀ (q : String) (env : QueryEnv),
      RAGService.extract_date_from_query q = none →
      env.most_recent = .ok none →
      RAGService.query q env =
        .ok ⟨"No meeting minutes are available in the system yet. Please contact an administrator to upload meeting minutes.",
          none, none, []⟩) ∧
    (∀ (q : String) (env : QueryEnv) (d : PyDate),
      RAGService.extract_date_from_query q = some d →
      env.search = .ok [] →
      RAGService.query q env =
        .ok ⟨"No information found for the meeting on " ++
            formatDateCode d env.epoch ++
            ". Please verify the date or try a different query.",
          some (isoformat d), none, []⟩) := by
  constructor
  · intro q env h1 h2
    simp only [RAGService.query, h1, h2]
  · intro q env d h1 h2
    simp only [RAGService.query, h1, h2]

theorem claim5_witness :
    RAGService.query "hello" ⟨.ok none, .ok [], .ok "", ""⟩ =
      .ok ⟨"No meeting minutes are available in the system yet. Please contact an administrator to upload meeting minutes.",
        none, none, []⟩ ∧
    RAGService.query "What was discussed on March 3rd, 2025?"
        ⟨.ok none, .ok [], .error "x", "1761433200"⟩ =
      .ok ⟨"No information found for the meeting on " ++
          formatDateCode ⟨2025, 3, 3⟩ "1761433200" ++
          ". Please verify the date or try a different query.",
        some (isoformat ⟨2025, 3, 3⟩), none, []⟩ :=
  ⟨claim5.1 "hello" ⟨.ok none, .ok [], .ok "", ""⟩ rfl rfl,
   claim5.2 "What was discussed on March 3rd, 2025?"
     ⟨.ok none, .ok [], .error "x", "1761433200"⟩ ⟨2025, 3, 3⟩ rfl rfl⟩

/-- The environment of the C4 counterexample: the date resolves via the
most-recent lookup, but the vector-store search raises. -/
def c4env : QueryEnv :=
  ⟨.ok (some ⟨2025, 3, 3⟩), .error "ConnectionError", .ok "ignored", ""⟩

/-- C4 counterexample: not every query-path failure resolves to a textual
answer.  When the Qdrant search raises (`search_relevant_chunks` has no
exception handler), the exception propagates out of `query` — an exception
crosses the core boundary. -/
theorem claim4_cex : RAGService.query "hello" c4env = .error "ConnectionError" := rfl

/-- C4 (amended): the failure `query` converts to a textual answer is the
generation-service failure — with a resolved date and nonempty well-formed
chunks, a generation error yields the error-describing answer together with
the resolved date and the source chunks.  A vector-store failure during
search, by contrast, propagates as an exception (second conjunct; see the
counterexample). -/
theorem claim4_amended :
    (∀ (q : String) (env : QueryEnv) (d : PyDate) (e : String)
        (first : SearchResult) (rest : List SearchResult) (fm : Option PVal),
      RAGService.extract_date_from_query q = some d →
      env.search = .ok (first :: rest) →
      (∀ c ∈ first :: rest, (c.lookup "text").isSome) →
      first.lookup "meeting_date_formatted" = some fm →
      env.generation = .error e →
      RAGService.query q env =
        .ok ⟨"An error occurred while processing your query: " ++ e,
          some (isoformat d), fm, first :: rest⟩) ∧
    (∀ (q : String) (env : QueryEnv) (d : PyDate) (e : String),
      RAGService.extract_date_from_query q = some d →
      env.search = .error e →
      RAGService.query q env = .error e) := by
  constructor
  · intro q env d e first rest fm h1 h2 h3 h4 h5
    have hall : (first :: rest).all (fun c => (c.lookup "text").isSome) = true :=
      List.all_eq_true.mpr (fun x hx => h3 x hx)
    simp only [RAGService.query, h1, h2, hall, if_true, h4, h5]
  · intro q env d e h1 h2
    simp only [RAGService.query, h1, h2]

/-- The well-formed single search hit of the C4 witness. -/
def c4chunk : SearchResult :=
  [("text", some (.str "budget approved")),
   ("meeting_date", some (.str "2025-03-03T00:00:00")),
   ("meeting_date_formatted", some (.str "Monday 03rd March, 2025")),
   ("score", some (.num 1)),
   ("chunk_index", some (.num 0))]

theorem claim4_witness :
    RAGService.query "What was discussed on March 3rd, 2025?"
        ⟨.ok none, .ok [c4chunk], .error "boom", ""⟩ =
      .ok ⟨"An error occurred while processing your query: boom",
        some (isoformat ⟨2025, 3, 3⟩),
        some (.str "Monday 03rd March, 2025"), [c4chunk]⟩ :=
  claim4_amended.1 "What was discussed on March 3rd, 2025?"
    ⟨.ok none, .ok [c4chunk], .error "boom", ""⟩ ⟨2025, 3, 3⟩ "boom" c4chunk []
    (some (.str "Monday 03rd March, 2025")) rfl rfl (by decide) rfl rfl

theorem pyReplace_no_head (p : Char) (ps rep : List Char) :
    ∀ s : List Char, (∀ c ∈ s, c ≠ p) → pyReplace s (p :: ps) rep = s := by
  intro s
  induction s with
  | nil => intro _; rw [pyReplace]
  | cons c t ih =>
    intro h
    rw [pyReplace_cons_ne ps rep t (h c (List.mem_cons_self c t)),
      ih (fun x hx => h x (List.mem_cons_of_mem c hx))]

/-- C10: for every meeting database id, `store_meeting_chunks` hands back
the namespace string `meeting_{id}`, and `delete_meeting` applied to that
very string strips the `meeting_` prefix, parses back exactly the id, and
issues a deletion whose filter exact-matches the `meeting_db_id` payload
field against it. -/
theorem claim10 :
    ∀ (meeting_db_id : Nat) (embed : String → List Rat) (epoch : String)
      (chunks : List String) (meeting_date : PyDate) (filename : String),
      (QdrantService.store_meeting_chunks embed epoch chunks meeting_date
        filename meeting_db_id).2 = "meeting_" ++ natToStr meeting_db_id ∧
      QdrantService.delete_meeting
          ((QdrantService.store_meeting_chunks embed epoch chunks meeting_date
            filename meeting_db_id).2) =
        .ok ("meeting_db_id", (meeting_db_id : Int)) := by
  intro m embed epoch chunks d f
  refine ⟨rfl, ?_⟩
  show QdrantService.delete_meeting ("meeting_" ++ natToStr m) = _
  have hrep : pyReplace ("meeting_" ++ natToStr m).data "meeting_".data [] =
      natToChars m := by
    show pyReplace ("meeting_".data ++ natToChars m) "meeting_".data [] = natToChars m
    show pyReplace (('m' :: "eeting_".data) ++ natToChars m) ('m' :: "eeting_".data) [] =
      natToChars m
    rw [pyReplace_pat_start, List.nil_append]
    refine pyReplace_no_head _ _ _ _ ?_
    intro c hc hcm
    have hdig := natToChars_all_digits m c hc
    rw [hcm] at hdig
    exact absurd hdig (by decide)
  simp only [QdrantService.delete_meeting, hrep, pyInt_natToChars]

theorem pyRepl_sunday (t : List Char) :
    pyReplace ('S' :: 'u' :: 'n' :: 'd' :: 'a' :: 'y' :: ' ' :: '2' :: '6' :: t)
        ('2' :: '6' :: []) ('2' :: '6' :: 't' :: 'h' :: []) =
      'S' :: 'u' :: 'n' :: 'd' :: 'a' :: 'y' :: ' ' :: '2' :: '6' :: 't' :: 'h' ::
        pyReplace t ('2' :: '6' :: []) ('2' :: '6' :: 't' :: 'h' :: []) := by
  rw [pyReplace_cons_ne _ _ _ (by decide), pyReplace_cons_ne _ _ _ (by decide),
    pyReplace_cons_ne _ _ _ (by decide), pyReplace_cons_ne _ _ _ (by decide),
    pyReplace_cons_ne _ _ _ (by decide), pyReplace_cons_ne _ _ _ (by decide),
    pyReplace_cons_ne _ _ _ (by decide)]
  have h := pyReplace_pat_start '2' ['6'] ('2' :: '6' :: 't' :: 'h' :: []) t
  simpa using h

/-- C9: the payload/query display-date expression does not produce the
ordinal display string the spec describes.  For 2025-10-26 the format
string `"%A %d%s %B, %Y"` inserts the platform `%s` expansion (a nonempty
string, epoch seconds on glibc) right after the day, so for every such
expansion the stored `meeting_date_formatted` differs from
`"Sunday 26th October, 2025"` — while the sibling formatting in
`api_routes` (suffix baked into the format string) produces exactly that
string, witnessing the intended output. -/
theorem claim9 :
    ∀ epoch : String, epoch ≠ "" →
      formatDateCode ⟨2025, 10, 26⟩ epoch ≠ "Sunday 26th October, 2025" ∧
      formatDateRoutes ⟨2025, 10, 26⟩ = "Sunday 26th October, 2025" := by
  intro epoch h
  refine ⟨?_, by decide⟩
  have hdata : epoch.data ≠ [] := by
    intro hl
    apply h
    cases epoch with
    | mk l =>
      simp only at hl
      rw [hl]
  intro heq
  have hbase : (weekdayChars ⟨2025, 10, 26⟩ ++ ' ' :: pad2Chars 26 ++ epoch.data ++
      ' ' :: monthChars 10 ++ ',' :: ' ' :: pad4Chars 2025 : List Char) =
      'S' :: 'u' :: 'n' :: 'd' :: 'a' :: 'y' :: ' ' :: '2' :: '6' ::
        (epoch.data ++ (' ' :: 'O' :: 'c' :: 't' :: 'o' :: 'b' :: 'e' :: 'r' ::
          ',' :: ' ' :: '2' :: '0' :: '2' :: '5' :: [])) := by
    rw [show weekdayChars ⟨2025, 10, 26⟩ = 'S' :: 'u' :: 'n' :: 'd' :: 'a' :: 'y' :: []
        from by decide,
      show pad2Chars 26 = '2' :: '6' :: [] from by decide,
      show monthChars 10 = 'O' :: 'c' :: 't' :: 'o' :: 'b' :: 'e' :: 'r' :: []
        from by decide,
      show pad4Chars 2025 = '2' :: '0' :: '2' :: '5' :: [] from by decide]
    simp
  have h1 : formatDateCode ⟨2025, 10, 26⟩ epoch =
      String.mk (pyReplace ('S' :: 'u' :: 'n' :: 'd' :: 'a' :: 'y' :: ' ' :: '2' :: '6' ::
          (epoch.data ++ (' ' :: 'O' :: 'c' :: 't' :: 'o' :: 'b' :: 'e' :: 'r' ::
            ',' :: ' ' :: '2' :: '0' :: '2' :: '5' :: [])))
        ('2' :: '6' :: []) ('2' :: '6' :: 't' :: 'h' :: [])) := by
    show String.mk (pyReplace (weekdayChars ⟨2025, 10, 26⟩ ++ ' ' :: pad2Chars 26 ++
        epoch.data ++ ' ' :: monthChars 10 ++ ',' :: ' ' :: pad4Chars 2025)
      (pad2Chars 26) (pad2Chars 26 ++ ordSuffixChars 26)) = _
    rw [hbase, show pad2Chars 26 = '2' :: '6' :: [] from by decide,
      show ordSuffixChars 26 = 't' :: 'h' :: [] from by decide]
    rfl
  have h2 : pyReplace ('S' :: 'u' :: 'n' :: 'd' :: 'a' :: 'y' :: ' ' :: '2' :: '6' ::
      (epoch.data ++ (' ' :: 'O' :: 'c' :: 't' :: 'o' :: 'b' :: 'e' :: 'r' ::
        ',' :: ' ' :: '2' :: '0' :: '2' :: '5' :: [])))
      ('2' :: '6' :: []) ('2' :: '6' :: 't' :: 'h' :: []) =
      ("Sunday 26th October, 2025" : String).data := by
    have := congrArg String.data (h1 ▸ heq)
    simpa using this
  rw [pyRepl_sunday] at h2
  have h3 := congrArg List.length h2
  have h4 := pyReplace_length_ge ('2' :: '6' :: []) ('2' :: '6' :: 't' :: 'h' :: [])
    (by decide)
    (epoch.data ++ (' ' :: 'O' :: 'c' :: 't' :: 'o' :: 'b' :: 'e' :: 'r' ::
      ',' :: ' ' :: '2' :: '0' :: '2' :: '5' :: [])).length
    (epoch.data ++ (' ' :: 'O' :: 'c' :: 't' :: 'o' :: 'b' :: 'e' :: 'r' ::
      ',' :: ' ' :: '2' :: '0' :: '2' :: '5' :: [])) le_rfl
  have h5 : 1 ≤ epoch.data.length := List.length_pos.mpr hdata
  have h6 : ("Sunday 26th October, 2025" : String).data.length = 25 := by decide
  simp only [List.length_cons, List.length_append, List.length_nil, h6] at h3 h4
  omega

theorem claim9_witness :
    formatDateCode ⟨2025, 10, 26⟩ "1761433200" ≠ "Sunday 26th October, 2025" ∧
    formatDateRoutes ⟨2025, 10, 26⟩ = "Sunday 26th October, 2025" :=
  claim9 "1761433200" (by decide)

theorem insertSorted_perm (score : QPoint → Rat) (p : QPoint) :
    ∀ l : List QPoint, (QdrantService.insertSorted score p l).Perm (p :: l) := by
  intro l
  induction l with
  | nil => exact List.Perm.refl _
  | cons q t ih =>
    show (if score q < score p then p :: q :: t else q :: QdrantService.insertSorted score p t).Perm _
    by_cases hq : score q < score p
    · rw [if_pos hq]
    · rw [if_neg hq]
      exact (ih.cons q).trans (List.Perm.swap p q t)

theorem sortByScore_perm (score : QPoint → Rat) :
    ∀ l : List QPoint, (QdrantService.sortByScore score l).Perm l := by
  intro l
  induction l with
  | nil => exact List.Perm.refl _
  | cons a t ih =>
    show (QdrantService.insertSorted score a (QdrantService.sortByScore score t)).Perm _
    exact (insertSorted_perm score a _).trans (ih.cons a)

/-- C6 counterexample: the claim requires the payload retrieved by `search`
to contain `meeting_db_id == 7`, but `search_relevant_chunks` re-formats
each hit as a dict with only `text`, `meeting_date`,
`meeting_date_formatted`, `score` and `chunk_index` — `meeting_db_id` (and
`filename`) are dropped.  On a concrete store written for meeting id 7 with
three chunks, no search result contains both `chunk_index == 2` and a
`meeting_db_id` field. -/
theorem claim6_cex :
    ¬ ∃ r ∈ QdrantService.search_relevant_chunks
        (QdrantService.store_meeting_chunks (fun _ => List.replicate 384 0) "1761433200"
          ["alpha", "beta", "gamma"] ⟨2025, 10, 26⟩ "minutes.pdf" 7).1
        (fun _ => 0) (some ⟨2025, 10, 26⟩) 5,
      r.lookup "chunk_index" = some (some (.num 2)) ∧
      r.lookup "meeting_db_id" = some (some (.num 7)) := by
  decide

/-- C6 (amended): `store_meeting_chunks` writes one point per chunk; for
meeting id 7 and chunk index 2 the point has id `7_2` and the full six-field
payload including `chunk_index == 2` and `meeting_db_id == 7`; that point
passes the exact-date search filter, and (for at most `top_k` stored chunks,
whatever the similarity scores) search returns its formatted result, which
carries `chunk_index == 2` and the chunk text — but the search-side dict
omits `meeting_db_id`, which is present only in the stored payload. -/
theorem claim6_amended :
    ∀ (c0 c1 c2 : String) (rest : List String) (d : PyDate)
      (filename epoch : String) (embed : String → List Rat) (score : QPoint → Rat),
      (c0 :: c1 :: c2 :: rest).length ≤ 5 →
      (QdrantService.store_meeting_chunks embed epoch (c0 :: c1 :: c2 :: rest) d
          filename 7).1.length = (c0 :: c1 :: c2 :: rest).length ∧
      (∃ p2 ∈ (QdrantService.store_meeting_chunks embed epoch (c0 :: c1 :: c2 :: rest) d
          filename 7).1,
        p2.id = "7_2" ∧
        p2.payload.lookup "text" = some (.str c2) ∧
        p2.payload.lookup "meeting_date" = some (.str (isoformat d)) ∧
        p2.payload.lookup "meeting_date_formatted" = some (.str (formatDateCode d epoch)) ∧
        p2.payload.lookup "filename" = some (.str filename) ∧
        p2.payload.lookup "chunk_index" = some (.num 2) ∧
        p2.payload.lookup "meeting_db_id" = some (.num 7) ∧
        (∃ r ∈ QdrantService.search_relevant_chunks
            (QdrantService.store_meeting_chunks embed epoch (c0 :: c1 :: c2 :: rest) d
              filename 7).1 score (some d) 5,
          r.lookup "chunk_index" = some (some (.num 2)) ∧
          r.lookup "text" = some (some (.str c2)))) ∧
      (∀ r ∈ QdrantService.search_relevant_chunks
          (QdrantService.store_meeting_chunks embed epoch (c0 :: c1 :: c2 :: rest) d
            filename 7).1 score (some d) 5,
        r.lookup "meeting_db_id" = none) := by
  intro c0 c1 c2 rest d fn ep embed score hlen
  have hpts : (QdrantService.store_meeting_chunks embed ep (c0 :: c1 :: c2 :: rest) d
      fn 7).1 = ((c0 :: c1 :: c2 :: rest).enum.map (fun ic =>
        (⟨natToStr 7 ++ "_" ++ natToStr ic.1, embed ic.2,
          [("text", PVal.str ic.2),
           ("meeting_date", PVal.str (isoformat d)),
           ("meeting_date_formatted", PVal.str (formatDateCode d ep)),
           ("filename", PVal.str fn),
           ("chunk_index", PVal.num ic.1),
           ("meeting_db_id", PVal.num 7)]⟩ : QPoint))) := rfl
  have hmem2 : ((2 : Nat), c2) ∈ (c0 :: c1 :: c2 :: rest).enum :=
    List.mk_mem_enum_iff_getElem?.mpr (by simp)
  have hp2 : (⟨natToStr 7 ++ "_" ++ natToStr 2, embed c2,
      [("text", PVal.str c2),
       ("meeting_date", PVal.str (isoformat d)),
       ("meeting_date_formatted", PVal.str (formatDateCode d ep)),
       ("filename", PVal.str fn),
       ("chunk_index", PVal.num 2),
       ("meeting_db_id", PVal.num 7)]⟩ : QPoint) ∈
      (QdrantService.store_meeting_chunks embed ep (c0 :: c1 :: c2 :: rest) d fn 7).1 := by
    rw [hpts]
    exact List.mem_map_of_mem _ hmem2
  have hfilt : QdrantService.matchesFilter (some (isoformat d))
      (⟨natToStr 7 ++ "_" ++ natToStr 2, embed c2,
        [("text", PVal.str c2),
         ("meeting_date", PVal.str (isoformat d)),
         ("meeting_date_formatted", PVal.str (formatDateCode d ep)),
         ("filename", PVal.str fn),
         ("chunk_index", PVal.num 2),
         ("meeting_db_id", PVal.num 7)]⟩ : QPoint) = true := by
    show (if some (PVal.str (isoformat d)) = some (PVal.str (isoformat d)) then true
      else false) = true
    rw [if_pos rfl]
  have hfmem := List.mem_filter.mpr ⟨hp2, hfilt⟩
  have hperm := sortByScore_perm score
    ((QdrantService.store_meeting_chunks embed ep (c0 :: c1 :: c2 :: rest) d fn 7).1.filter
      (QdrantService.matchesFilter (some (isoformat d))))
  have hlenpts : (QdrantService.store_meeting_chunks embed ep (c0 :: c1 :: c2 :: rest) d
      fn 7).1.length = (c0 :: c1 :: c2 :: rest).length := by
    rw [hpts]
    simp
  have hflen : ((QdrantService.store_meeting_chunks embed ep (c0 :: c1 :: c2 :: rest) d
      fn 7).1.filter (QdrantService.matchesFilter (some (isoformat d)))).length ≤ 5 := by
    have h1 := List.length_filter_le
      (QdrantService.matchesFilter (some (isoformat d)))
      (QdrantService.store_meeting_chunks embed ep (c0 :: c1 :: c2 :: rest) d fn 7).1
    omega
  have hslen : (QdrantService.sortByScore score
      ((QdrantService.store_meeting_chunks embed ep (c0 :: c1 :: c2 :: rest) d fn 7).1.filter
        (QdrantService.matchesFilter (some (isoformat d))))).length ≤ 5 := by
    rw [hperm.length_eq]
    exact hflen
  have htake := List.take_of_length_le hslen
  have hsmem := hperm.mem_iff.mpr hfmem
  have hrmem : ([("text", some (PVal.str c2)),
      ("meeting_date", some (PVal.str (isoformat d))),
      ("meeting_date_formatted", some (PVal.str (formatDateCode d ep))),
      ("score", some (PVal.num (score (⟨natToStr 7 ++ "_" ++ natToStr 2, embed c2,
        [("text", PVal.str c2),
         ("meeting_date", PVal.str (isoformat d)),
         ("meeting_date_formatted", PVal.str (formatDateCode d ep)),
         ("filename", PVal.str fn),
         ("chunk_index", PVal.num 2),
         ("meeting_db_id", PVal.num 7)]⟩ : QPoint)))),
      ("chunk_index", some (PVal.num 2))] : SearchResult) ∈
      QdrantService.search_relevant_chunks
        (QdrantService.store_meeting_chunks embed ep (c0 :: c1 :: c2 :: rest) d fn 7).1
        score (some d) 5 := by
    show _ ∈ ((QdrantService.sortByScore score
        ((QdrantService.store_meeting_chunks embed ep (c0 :: c1 :: c2 :: rest) d fn 7).1.filter
          (QdrantService.matchesFilter (some (isoformat d))))).take 5).map _
    rw [htake]
    exact List.mem_map_of_mem _ hsmem
  have hid : natToStr 7 ++ "_" ++ natToStr 2 = "7_2" := by decide
  refine ⟨hlenpts, ⟨_, hp2, hid, rfl, rfl, rfl, rfl, rfl, rfl,
    ⟨_, hrmem, rfl, rfl⟩⟩, ?_⟩
  intro r hr
  have hr2 : r ∈ ((QdrantService.sortByScore score
      ((QdrantService.store_meeting_chunks embed ep (c0 :: c1 :: c2 :: rest) d fn 7).1.filter
        (QdrantService.matchesFilter (some (isoformat d))))).take 5).map
      (fun p => ([("text", p.payload.lookup "text"),
        ("meeting_date", p.payload.lookup "meeting_date"),
        ("meeting_date_formatted", p.payload.lookup "meeting_date_formatted"),
        ("score", some (PVal.num (score p))),
        ("chunk_index", p.payload.lookup "chunk_index")] : SearchResult)) := hr
  obtain ⟨p, hp, rfl⟩ := List.mem_map.mp hr2
  rfl

theorem claim6_witness :
    (QdrantService.store_meeting_chunks (fun _ => List.replicate 384 0) "1761433200"
      ["alpha", "beta", "gamma"] ⟨2025, 10, 26⟩ "minutes.pdf" 7).1.length =
      (["alpha", "beta", "gamma"] : List String).length :=
  (claim6_amended "alpha" "beta" "gamma" [] ⟨2025, 10, 26⟩ "minutes.pdf" "1761433200"
    (fun _ => List.replicate 384 0) (fun _ => 0) (by decide)).1
